import Mathlib

/-!
Verification of the syncthing read-write folder puller (`lib/model/rwfolder.go`)
against its natural-language specification.

The definitions below are a shallow embedding of the Go source.  Pure helper
functions become Lean functions; the channel-driven routines become explicit
state-passing recursions over the sequence of events the routine would have
received on its channels.  External collaborators that are not part of the
source under study (the protocol version vectors, the scanner block
comparison, the availability records) are modelled from the specification's
description of their contracts and are marked as such.
-/

/-- Modelled from the spec: `protocol.Vector`, a version vector — "a set of
(deviceShortID, counter) pairs" (§3).  The protocol package is not part of the
source under study; only its contract is. -/
structure VVector where
  counters : List (Nat × Nat)
deriving DecidableEq, Repr

/-- Modelled from the spec: `Vector.Counter(id)` — the counter recorded for a
device short id, zero when the device is absent from the vector. -/
def VVector.Counter (v : VVector) (id : Nat) : Nat :=
  match v.counters.find? (fun p => p.1 = id) with
  | some p => p.2
  | none => 0

/-- The device ids mentioned by either of two vectors (used to compare and
merge them pointwise). -/
def VVector.ids (a b : VVector) : List Nat :=
  ((a.counters ++ b.counters).map Prod.fst).dedup

/-- Modelled from the spec: `A.Concurrent(B)` iff neither vector dominates the
other (§3), i.e. each one is strictly ahead of the other at some device. -/
def VVector.Concurrent (a b : VVector) : Bool :=
  (VVector.ids a b).any (fun id => a.Counter id > b.Counter id) &&
    (VVector.ids a b).any (fun id => b.Counter id > a.Counter id)

/-- Modelled from the spec: `A.Merge(B)`, the pointwise maximum of two version
vectors (the merged vector used when resolving conflicts). -/
def VVector.Merge (a b : VVector) : VVector :=
  ⟨(VVector.ids a b).map (fun id => (id, max (a.Counter id) (b.Counter id)))⟩

/-- Modelled from the spec: one block of `FileInfo.Blocks`, an
"(offset, size, hash) triple" (§3). -/
structure BlockInfo where
  offset : Int
  size : Nat
  hash : Nat
deriving DecidableEq, Repr

/-- Modelled from the spec: `protocol.FileInfo` (§3).  Kind is represented by
the two flag bits the source inspects (`IsDirectory`, `IsSymlink`; a symlink
to a directory carries both), with the deleted and invalid flags orthogonal. -/
structure FileInfo where
  name : String
  dirFlag : Bool
  symlinkFlag : Bool
  deletedFlag : Bool
  invalidFlag : Bool
  noPermsFlag : Bool
  modified : Int
  size : Int
  version : VVector
  localVersion : Nat
  blocks : List BlockInfo
deriving DecidableEq, Repr

def FileInfo.IsDeleted (f : FileInfo) : Bool := f.deletedFlag

def FileInfo.IsDirectory (f : FileInfo) : Bool := f.dirFlag

def FileInfo.IsSymlink (f : FileInfo) : Bool := f.symlinkFlag

def FileInfo.IsInvalid (f : FileInfo) : Bool := f.invalidFlag

def FileInfo.Size (f : FileInfo) : Int := f.size

/-- Modelled from the spec: `scanner.BlocksEqual` — "*all* blocks are equal"
(§4.11): the two block lists have the same length and equal hashes position by
position. -/
def BlocksEqual (a b : List BlockInfo) : Bool :=
  a.length = b.length && (a.zip b).all (fun p => p.1.hash = p.2.hash)

/-- Modelled from the spec: an `Availability` record — a peer believed to hold
a block "plus a flag indicating whether the source is the peer's *temporary*
in-progress file" (§4.3). -/
structure Availability where
  id : Nat
  fromTemporary : Bool
deriving DecidableEq, Repr

/-- `removeAvailability` from the source: scan for the first element equal to
`availability`; when found, overwrite that slot with the last element of the
whole slice and chop the final slot off (`availabilities[:len-1]`); otherwise
return the slice unchanged.  The recursion renders the Go index loop: at the
first match the original slice's last element replaces the match, and since
the last element of the remaining suffix is the last element of the whole
slice, the swap-and-truncate can be expressed on the suffix in place. -/
def removeAvailability : List Availability → Availability → List Availability
  | [], _ => []
  | x :: xs, availability =>
      if x = availability then ((x :: xs).getLastD availability :: xs).dropLast
      else x :: removeAvailability xs availability

/-- `inConflict` from the source: a replacement is in conflict with the
current version when the two vectors are concurrent, or when the replacement
carries a higher counter for the local device's short id than the current
version does. -/
def inConflict (shortID : Nat) (current replacement : VVector) : Bool :=
  if current.Concurrent replacement then
    true
  else if replacement.Counter shortID > current.Counter shortID then
    true
  else
    false

/-- Modelled from the spec: the activity tracker's `leastBusy` — "select
least-busy (lowest in-flight count via the activity tracker)" (§4.8), the
first candidate with the minimal in-flight count, and no candidate at all when
the list is empty. -/
def leastBusy (busy : Availability → Nat) : List Availability → Option Availability
  | [] => none
  | x :: xs =>
      match leastBusy busy xs with
      | none => some x
      | some y => if busy x ≤ busy y then some x else some y

/-- `errNoDevice` from the source. -/
def errNoDevice : String :=
  "peers who had this file went away, or the file has changed while syncing. will retry later"

/-- One candidate attempt as seen by the `pullerRoutine` candidate loop: the
network request may fail, the received buffer may fail hash verification, or
the block is obtained (in which case the temp-file write may still fail). -/
inductive AttemptOutcome where
  | requestError (e : String)
  | hashMismatch (e : String)
  | verified (saveErr : Option String)
deriving DecidableEq, Repr

/-- What `pullerRoutine` does to the shared state for one block. -/
inductive BlockFetchResult where
  | failed (reason : String) (e : String)
  | pullDone
deriving DecidableEq, Repr

/-- The candidate loop of `pullerRoutine` for one non-empty block, after the
temp file was obtained.  `attempt` is the oracle for one candidate's request
(`requestGlobal` + `VerifyBuffer` + `WriteAt`).  In the source, the statement
`buf, lastError := f.model.requestGlobal(...)` inside the loop body declares a
*fresh* `lastError` that shadows the one declared before the loop, as does the
subsequent `_, lastError = scanner.VerifyBuffer(...)` which assigns that inner
variable; the outer `lastError` consulted when the candidates run out is never
written.  The embedding reflects this faithfully: `lastError` is threaded
through the recursion unchanged. -/
def pullerCandidateLoop (busy : Availability → Nat) (attempt : Availability → AttemptOutcome)
    (candidates : List Availability) (lastError : Option String) : BlockFetchResult :=
  match h : leastBusy busy candidates with
  | none =>
      match lastError with
      | some e => .failed "pull" e
      | none => .failed "pull" errNoDevice
  | some selected =>
      match attempt selected with
      | .requestError _ =>
          pullerCandidateLoop busy attempt (removeAvailability candidates selected) lastError
      | .hashMismatch _ =>
          pullerCandidateLoop busy attempt (removeAvailability candidates selected) lastError
      | .verified none => .pullDone
      | .verified (some e) => .failed "save" e
termination_by candidates.length
decreasing_by
  all_goals
    have hmem : selected ∈ candidates := by
      clear * - h
      induction candidates with
      | nil => cases h
      | cons x xs ih =>
          rw [leastBusy] at h
          cases hx : leastBusy busy xs with
          | none =>
              rw [hx] at h
              simp only [Option.some.injEq] at h
              subst h
              exact List.mem_cons_self _ _
          | some y =>
              rw [hx] at h
              by_cases hb : busy x ≤ busy y
              · simp only [if_pos hb, Option.some.injEq] at h
                subst h
                exact List.mem_cons_self _ _
              · simp only [if_neg hb, Option.some.injEq] at h
                subst h
                exact List.mem_cons_of_mem _ (ih hx)
    clear * - hmem
    induction candidates with
    | nil => cases hmem
    | cons x xs ih =>
        by_cases hx : x = selected
        · simp [removeAvailability, hx, List.length_dropLast]
        · have hmem' : selected ∈ xs := by
            rcases List.mem_cons.mp hmem with h1 | h2
            · exact absurd h1.symm hx
            · exact h2
          have := ih hmem'
          simp only [removeAvailability, if_neg hx, List.length_cons]
          omega

/-- The exit state of the inner pull loop of `rwFolder.Serve`: either an
iteration reported `changed == 0` (record `prevVer`, reschedule after the
sleep interval), or more than ten iterations reported progress still needed
(reschedule after the pause interval, publishing a `FolderErrors` event when
the per-file error map is non-empty). -/
structure PullLoopExit where
  paused : Bool
  timerReset : Nat
  publishedFolderErrors : Bool
  recordedPrevVer : Bool
deriving DecidableEq, Repr

/-- The inner `for` loop of `rwFolder.Serve` under the pull-timer case.  Each
element of `iterations` is the `changed` count one `pullerIteration` call
would return; the loop consumes them in order, incrementing `tries` before
inspecting each.  The result also carries the total number of iterations run.
`none` means the supplied trace ended before the loop exited. -/
def servePullLoop (sleep pause : Nat) (folderErrors : List (String × String)) :
    List Nat → Nat → Option (PullLoopExit × Nat)
  | [], _ => none
  | changed :: rest, tries =>
      let tries' := tries + 1
      if changed = 0 then
        some ({ paused := false, timerReset := sleep, publishedFolderErrors := false,
                recordedPrevVer := true }, tries')
      else if tries' > 10 then
        some ({ paused := true, timerReset := pause,
                publishedFolderErrors := folderErrors.length > 0,
                recordedPrevVer := false }, tries')
      else
        servePullLoop sleep pause folderErrors rest tries'

/-- The `dbUpdate*` job-type constants from the source (consecutive `iota`
values, not bit flags). -/
def dbUpdateHandleDir : Nat := 0

def dbUpdateDeleteDir : Nat := 1

def dbUpdateHandleFile : Nat := 2

def dbUpdateDeleteFile : Nat := 3

def dbUpdateShortcutFile : Nat := 4

/-- `dbUpdateJob` from the source. -/
structure DbUpdateJob where
  file : FileInfo
  jobType : Nat
deriving DecidableEq, Repr

/-- `maxBatchSize` from `dbUpdaterRoutine`. -/
def maxBatchSize : Nat := 1000

/-- The per-job fold inside `handleBatch`: `files` collects every job's file;
`found`/`lastFile` track the last job whose file is non-invalid and not a
(non-symlink) directory and whose job type survives the bitmask test
`jobType & (dbUpdateHandleFile | dbUpdateDeleteFile) != 0`.  The result pairs
the files passed to `updateLocals` with the `receivedFile` notification
(`none` when `found` stays false). -/
def handleBatch (batch : List DbUpdateJob) : List FileInfo × Option FileInfo :=
  (batch.map (·.file),
    batch.foldl
      (fun acc job =>
        if job.file.IsInvalid || (job.file.IsDirectory && !job.file.IsSymlink) then acc
        else if job.jobType &&& (dbUpdateHandleFile ||| dbUpdateDeleteFile) = 0 then acc
        else some job.file)
      none)

/-- What can happen on the db updater's channels: a job arrives, or the 2 s
ticker fires.  Closing the channel is the end of the event list. -/
inductive DbEvent where
  | job (j : DbUpdateJob)
  | tick
deriving DecidableEq, Repr

/-- Why a batch was flushed: it reached `maxBatchSize`, the ticker fired with
a non-empty batch, or the channel closed with jobs remaining. -/
inductive FlushTrigger where
  | size
  | tick
  | close
deriving DecidableEq, Repr

/-- `dbUpdaterRoutine` from the source as a transition system over the events
received on `f.dbUpdates` and the ticker: jobs have their `LocalVersion`
stripped to 0 and are appended to the batch; the batch is flushed (passed to
`handleBatch`) when it reaches `maxBatchSize`, when the ticker fires with a
non-empty batch, and once more at channel close when jobs remain.  The result
lists the flushed batches in order, each tagged with its trigger. -/
def dbUpdaterRun : List DbEvent → List DbUpdateJob → List (FlushTrigger × List DbUpdateJob)
  | [], batch =>
      if batch.length > 0 then [(.close, batch)] else []
  | .job j :: es, batch =>
      let stripped := { j with file := { j.file with localVersion := 0 } }
      let batch' := batch ++ [stripped]
      if batch'.length = maxBatchSize then (.size, batch') :: dbUpdaterRun es []
      else dbUpdaterRun es batch'
  | .tick :: es, batch =>
      if batch.length > 0 then (.tick, batch) :: dbUpdaterRun es []
      else dbUpdaterRun es []

/-- The predicate selecting the jobs that make `handleBatch` set `found` and
`lastFile` (used to state what the fold computes). -/
def qualifiesForReceivedFile (job : DbUpdateJob) : Bool :=
  !(job.file.IsInvalid || (job.file.IsDirectory && !job.file.IsSymlink)) &&
    !(job.jobType &&& (dbUpdateHandleFile ||| dbUpdateDeleteFile) = 0)

/-- `df.Blocks[0].Hash` — the bucket key.  The source indexes `Blocks[0]`
directly and is only reached for records with at least one block; the default
covers the out-of-domain case. -/
def firstHash (f : FileInfo) : Nat := (f.blocks.headD ⟨0, 0, 0⟩).hash

/-- Lookup in the `fileDeletions` map (a Go `map[string]protocol.FileInfo`). -/
def fdGet (m : List (String × FileInfo)) (k : String) : Option FileInfo :=
  (m.find? (fun p => p.1 = k)).map (·.2)

/-- Insert/overwrite in the `fileDeletions` map. -/
def fdSet (m : List (String × FileInfo)) (k : String) (v : FileInfo) :
    List (String × FileInfo) :=
  (k, v) :: m.filter (fun p => ¬p.1 = k)

/-- `delete(fileDeletions, name)`. -/
def fdDelete (m : List (String × FileInfo)) (k : String) : List (String × FileInfo) :=
  m.filter (fun p => ¬p.1 = k)

/-- Lookup in the `buckets` map (`map[string][]protocol.FileInfo`, keyed by
first block hash); a missing key reads as the empty slice. -/
def bucketGet (bs : List (Nat × List FileInfo)) (k : Nat) : List FileInfo :=
  ((bs.find? (fun p => p.1 = k)).map (·.2)).getD []

/-- Insert/overwrite in the `buckets` map. -/
def bucketSet (bs : List (Nat × List FileInfo)) (k : Nat) (v : List FileInfo) :
    List (Nat × List FileInfo) :=
  (k, v) :: bs.filter (fun p => ¬p.1 = k)

/-- The candidate scan of the rename detection: find the first bucket entry
satisfying `p`; on a hit, remove it by overwriting its slot with the bucket's
last element and truncating (`buckets[key][i] = buckets[key][lidx];
buckets[key] = buckets[key][:lidx]`), returning the matched candidate and the
shrunken bucket. -/
def swapRemoveFirst (p : FileInfo → Bool) : List FileInfo → Option (FileInfo × List FileInfo)
  | [] => none
  | x :: xs =>
      if p x then some (x, ((x :: xs).getLastD x :: xs).dropLast)
      else
        match swapRemoveFirst p xs with
        | some (c, rest) => some (c, x :: rest)
        | none => none

/-- The mutable state of one `pullerIteration` that the queue-drain loop
touches, plus append-only logs of the calls it makes (`handleDir`,
`renameFile` as the pair of cancelled-source name and target, and `handleFile`
dispatches into the copy/pull pipeline). -/
structure DrainState where
  buckets : List (Nat × List FileInfo)
  fileDeletions : List (String × FileInfo)
  dirDeletions : List FileInfo
  dirsHandled : List FileInfo
  renamed : List (String × FileInfo)
  pipelined : List FileInfo
deriving DecidableEq, Repr

/-- The `handleFile` closure declared inside `pullerIteration` (the
classifier): returns `true` and updates the state when the record is a
deletion or a plain directory, `false` when the record is a new/changed file
or symlink that the caller must process.  `cur` is the
`CurrentFolderFile` lookup made for non-directory deletions. -/
def classifyNeeded (fi : FileInfo) (cur : Option FileInfo) (st : DrainState) :
    Bool × DrainState :=
  if fi.IsDeleted then
    if fi.IsDirectory then
      (true, { st with dirDeletions := st.dirDeletions ++ [fi] })
    else
      let st' := { st with fileDeletions := fdSet st.fileDeletions fi.name fi }
      match cur with
      | some df =>
          if !df.IsDeleted && !df.IsSymlink && !df.IsDirectory then
            let key := firstHash df
            (true, { st' with buckets := bucketSet st'.buckets key (bucketGet st'.buckets key ++ [df]) })
          else
            (true, st')
      | none => (true, st')
  else if fi.IsDirectory && !fi.IsSymlink then
    (true, { st with dirsHandled := st.dirsHandled ++ [fi] })
  else
    (false, st)

/-- One pop of the queue-drain loop: the `CurrentGlobalFile` lookup for the
popped name (`none` drops the entry), and the `CurrentFolderFile` lookup the
classifier would make if the record turned into a deletion. -/
structure QueueEntry where
  global : Option FileInfo
  current : Option FileInfo
deriving DecidableEq, Repr

/-- One round of the `nextFile` loop of `pullerIteration`: drop records gone
from the index, re-classify (an index update may have changed the record),
then for non-symlinks attempt the rename shortcut against the bucket of the
first block hash — on a hit the candidate leaves its bucket, its pending
deletion leaves `fileDeletions`, and `renameFile` runs; otherwise the file
goes to `handleFile`. -/
def drainStep (st : DrainState) (e : QueueEntry) : DrainState :=
  match e.global with
  | none => st
  | some fi =>
      match classifyNeeded fi e.current st with
      | (true, st') => st'
      | (false, st') =>
          if !fi.IsSymlink then
            let key := firstHash fi
            match swapRemoveFirst (fun candidate => BlocksEqual candidate.blocks fi.blocks)
                (bucketGet st'.buckets key) with
            | some (candidate, bucket') =>
                { st' with
                  buckets := bucketSet st'.buckets key bucket'
                  fileDeletions := fdDelete st'.fileDeletions candidate.name
                  renamed := st'.renamed ++ [(candidate.name, fi)] }
            | none => { st' with pipelined := st'.pipelined ++ [fi] }
          else
            { st' with pipelined := st'.pipelined ++ [fi] }

/-- The whole queue drain: the `nextFile` loop over the popped entries. -/
def drainRun (es : List QueueEntry) (st : DrainState) : DrainState :=
  es.foldl drainStep st

/-- The deletion phase after the drain: `deleteFile` runs for exactly the
entries still pending in `fileDeletions`. -/
def appliedFileDeletions (st : DrainState) : List FileInfo :=
  st.fileDeletions.map (·.2)

/-- Whether a drained queue entry adds a pending deletion under name `n`:
the classifier writes `fileDeletions[fi.Name]` exactly for deleted
non-directory records. -/
def addsDeletionNamed (e : QueueEntry) (n : String) : Bool :=
  match e.global with
  | some fi => fi.IsDeleted && !fi.IsDirectory && fi.name = n
  | none => false

/-- The observable outcome of `moveForConflict` on one path: the conflict-copy
name the file was renamed to (when the rename path ran and succeeded), whether
the file was removed without preserving a copy, which existing conflict copies
were pruned, and the returned error. -/
structure ConflictMoveResult where
  renamedTo : Option String
  removed : Bool
  pruned : List String
  err : Option String
deriving DecidableEq, Repr

/-- `sort.Sort(sort.Reverse(sort.StringSlice(matches)))` — the glob matches in
descending lexicographic order (their embedded timestamps make that
newest-first). -/
def sortConflictsDesc (l : List String) : List String :=
  l.insertionSort (fun a b => b ≤ a)

/-- `moveForConflict` from the source.  `nameIsConflictCopy` models
`strings.Contains(filepath.Base(name), ".sync-conflict-")`; `stem`/`ext` are
`name` split at `filepath.Ext`; `now` is the formatted timestamp; `opErr` is
the oracle for the error of the filesystem operation performed on an existing
source (`os.Rename` or `osutil.Remove`); `globResult` is the oracle for
`osutil.Glob` (`none` = glob error).  A missing source surfaces as
`os.IsNotExist`, which every branch converts to success. -/
def moveForConflict (maxConflicts : Int) (nameIsConflictCopy : Bool) (stem ext now : String)
    (sourceExists : Bool) (opErr : Option String) (globResult : Option (List String)) :
    ConflictMoveResult :=
  if nameIsConflictCopy then
    if sourceExists then
      match opErr with
      | some e => { renamedTo := none, removed := false, pruned := [], err := some e }
      | none => { renamedTo := none, removed := true, pruned := [], err := none }
    else
      { renamedTo := none, removed := false, pruned := [], err := none }
  else if maxConflicts = 0 then
    if sourceExists then
      match opErr with
      | some e => { renamedTo := none, removed := false, pruned := [], err := some e }
      | none => { renamedTo := none, removed := true, pruned := [], err := none }
    else
      { renamedTo := none, removed := false, pruned := [], err := none }
  else
    let newName := stem ++ ".sync-conflict-" ++ now ++ ext
    let renameErr : Option String := if sourceExists then opErr else none
    let renamedTo : Option String :=
      if sourceExists ∧ opErr = none then some newName else none
    let pruned : List String :=
      if maxConflicts > -1 then
        match globResult with
        | some ms =>
            if (ms.length : Int) > maxConflicts then
              (sortConflictsDesc ms).drop maxConflicts.toNat
            else []
        | none => []
      else []
    { renamedTo := renamedTo, removed := false, pruned := pruned, err := renameErr }

/-- `f.ignorePermissions(file)` from the source: the folder-wide flag or the
per-file no-permission-bits flag. -/
def ignorePermissions (folderIgnorePerms : Bool) (file : FileInfo) : Bool :=
  folderIgnorePerms || file.noPermsFlag

/-- `shortcutFile` from the source.  Go passes `file` by value, so the version
merge near the end mutates only the callee's copy; the embedding returns that
local copy alongside the error so theorems can talk about it.  `chmodErr`,
`chtimesErr` and `statErr` are oracles for the respective filesystem calls;
`cur` is the `CurrentFolderFile` lookup. -/
def shortcutFile (folderIgnorePerms : Bool) (chmodErr chtimesErr statErr : Option String)
    (cur : Option FileInfo) (file : FileInfo) : Option String × FileInfo :=
  match (if ignorePermissions folderIgnorePerms file then none else chmodErr) with
  | some e => (some e, file)
  | none =>
      let merged :=
        match cur with
        | some c => { file with version := file.version.Merge c.version }
        | none => file
      match chtimesErr with
      | none => (none, merged)
      | some _ =>
          match statErr with
          | some e => (some e, file)
          | none => (none, merged)

/-- The path `handleFile` takes for one needed file. -/
inductive HandleFileAction where
  | shortcutDone (emitted : Option DbUpdateJob)
  | rescanScheduled
  | insufficientSpace
  | pipelineStarted
deriving DecidableEq, Repr

/-- `handleFile` from the source, up to the decision which path the file
takes: the metadata-only shortcut (block lists of equal length and equal
hashes), the staleness guard (a regular-file local record whose on-disk mtime
— through the virtual-mtime override `vmtime` — or size disagrees with the
index schedules a background rescan instead of pulling), the free-space
check, or the dispatch of a `sharedPullerState` to the copier channel.  The
temp-file block-reuse bookkeeping between the guard and the dispatch affects
only which blocks are fetched, not which path is taken, and is collapsed into
`blocksSize` (the bytes the pipeline would fetch).  `lstatResult` is the
`osutil.Lstat` oracle as (mtime, size); `curOpt` the `CurrentFolderFile`
lookup, also passed through to `shortcutFile`. -/
def handleFile (folderIgnorePerms : Bool) (curOpt : Option FileInfo) (file : FileInfo)
    (chmodErr chtimesErr statErr symlinkErr : Option String)
    (lstatResult : Option (Int × Int)) (vmtime : Int → Int)
    (checkFreeSpace : Bool) (freeBytes blocksSize : Int) : HandleFileAction :=
  let shortcutCond :=
    match curOpt with
    | some curFile =>
        curFile.blocks.length = file.blocks.length && BlocksEqual curFile.blocks file.blocks
    | none => false
  if shortcutCond then
    let e :=
      if file.IsSymlink then symlinkErr
      else (shortcutFile folderIgnorePerms chmodErr chtimesErr statErr curOpt file).1
    match e with
    | some _ => .shortcutDone none
    | none => .shortcutDone (some ⟨file, dbUpdateShortcutFile⟩)
  else
    let afterGuard : HandleFileAction :=
      if checkFreeSpace ∧ freeBytes < blocksSize then .insufficientSpace
      else .pipelineStarted
    match curOpt with
    | some curFile =>
        if !curFile.IsDirectory && !curFile.IsSymlink then
          match lstatResult with
          | some (diskMtime, diskSize) =>
              if vmtime diskMtime ≠ curFile.modified ∨ diskSize ≠ curFile.Size then
                .rescanScheduled
              else afterGuard
          | none => afterGuard
        else afterGuard
    | none => afterGuard

/-- Classified filesystem errors as the source's `os.IsNotExist` /
`os.IsPermission` predicates see them. -/
inductive FsErr where
  | notExist
  | permission
  | other (msg : String)
deriving DecidableEq, Repr

/-- Which of the three disposal paths `deleteFile` takes for the on-disk
file. -/
inductive DeleteFileAction where
  | conflictMove
  | versionerArchive
  | plainRemove
deriving DecidableEq, Repr

/-- The observable outcome of `deleteFile`. -/
structure DeleteFileResult where
  action : DeleteFileAction
  job : Option DbUpdateJob
  errorRecorded : Bool
deriving DecidableEq, Repr

/-- `deleteFile` from the source: with a conflicting current record the file
moves to a conflict copy (and the recorded version is the incoming one merged
with the local one); otherwise the versioner archives it when configured, else
it is plainly removed.  `opErr` is the oracle for the chosen operation's
error, `lstatErr` for the `os.Lstat` consulted when that error is neither nil
nor not-exist. -/
def deleteFile (shortID : Nat) (hasVersioner : Bool) (cur : Option FileInfo)
    (file : FileInfo) (opErr : Option FsErr) (lstatErr : Option FsErr) : DeleteFileResult :=
  let fileAfter :=
    match cur with
    | some c =>
        if inConflict shortID c.version file.version then
          { file with version := file.version.Merge c.version }
        else file
    | none => file
  let action :=
    match cur with
    | some c =>
        if inConflict shortID c.version file.version then DeleteFileAction.conflictMove
        else if hasVersioner then DeleteFileAction.versionerArchive
        else DeleteFileAction.plainRemove
    | none =>
        if hasVersioner then DeleteFileAction.versionerArchive
        else DeleteFileAction.plainRemove
  if opErr = none ∨ opErr = some .notExist then
    { action := action, job := some ⟨fileAfter, dbUpdateDeleteFile⟩, errorRecorded := false }
  else
    match lstatErr with
    | some serr =>
        if serr ≠ .permission then
          { action := action, job := some ⟨fileAfter, dbUpdateDeleteFile⟩, errorRecorded := false }
        else
          { action := action, job := none, errorRecorded := true }
    | none => { action := action, job := none, errorRecorded := true }

/-! ## Theorems -/

theorem removeAvailability_eq_of_not_mem (l : List Availability) (a : Availability)
    (h : a ∉ l) : removeAvailability l a = l := by
  induction l with
  | nil => rfl
  | cons x xs ih =>
      have hxa : x ≠ a := fun he => h (he ▸ List.mem_cons_self x xs)
      have hxs : a ∉ xs := fun hm => h (List.mem_cons_of_mem _ hm)
      simp [removeAvailability, fun he : x = a => hxa he, ih hxs]

theorem removeAvailability_len_perm_of_mem (l : List Availability) (a : Availability)
    (h : a ∈ l) :
    (removeAvailability l a).length + 1 = l.length ∧
      (removeAvailability l a ++ [a]).Perm l := by
  induction l with
  | nil => cases h
  | cons x xs ih =>
      by_cases hxa : x = a
      · subst hxa
        rcases List.eq_nil_or_concat xs with hnil | ⟨ys, z, hconc⟩
        · subst hnil
          simp [removeAvailability]
        · rw [List.concat_eq_append] at hconc
          subst hconc
          have hlast : (x :: (ys ++ [z])).getLastD x = z := by
            rw [List.getLastD_eq_getLast?,
              show x :: (ys ++ [z]) = (x :: ys) ++ [z] from (List.cons_append x ys [z]).symm,
              List.getLast?_concat]
            rfl
          have hdrop : (z :: (ys ++ [z])).dropLast = z :: ys := by
            have := @List.dropLast_concat _ (z :: ys) z
            simpa using this
          have hval : removeAvailability (x :: (ys ++ [z])) x = z :: ys := by
            simp only [removeAvailability, if_pos rfl]
            rw [hlast, hdrop]
            simp
          rw [hval]
          refine ⟨by simp, ?_⟩
          have p1 : ((z :: ys) ++ [x]).Perm (x :: (z :: ys)) := by
            simpa using @List.perm_middle _ x (z :: ys) []
          have p2 : (z :: ys).Perm (ys ++ [z]) := by
            simpa using (@List.perm_middle _ z ys []).symm
          exact p1.trans (List.Perm.cons x p2)
      · have hmem : a ∈ xs := by
          rcases List.mem_cons.mp h with h1 | h2
          · exact absurd h1.symm hxa
          · exact h2
        obtain ⟨ihlen, ihperm⟩ := ih hmem
        simp only [removeAvailability, if_neg hxa]
        refine ⟨by simp [← ihlen], ?_⟩
        simpa using List.Perm.cons x ihperm

/-- C10: for every slice and value, `removeAvailability` returns the slice
unchanged when the value does not occur in it; when the value occurs, the
result is exactly one element shorter and its elements are the input's
multiset minus one occurrence of the value (order may change). -/
theorem C10_removeAvailability_spec (l : List Availability) (a : Availability) :
    (a ∉ l → removeAvailability l a = l) ∧
      (a ∈ l → (removeAvailability l a).length + 1 = l.length ∧
        (removeAvailability l a ++ [a]).Perm l) :=
  ⟨removeAvailability_eq_of_not_mem l a, removeAvailability_len_perm_of_mem l a⟩

/-- Witness for C10 at a concrete slice containing the removed value. -/
theorem C10_removeAvailability_witness :
    (removeAvailability [⟨1, false⟩, ⟨2, false⟩, ⟨3, true⟩] ⟨2, false⟩).length + 1 = 3 ∧
      (removeAvailability [⟨1, false⟩, ⟨2, false⟩, ⟨3, true⟩] ⟨2, false⟩ ++
          ([⟨2, false⟩] : List Availability)).Perm [⟨1, false⟩, ⟨2, false⟩, ⟨3, true⟩] :=
  (C10_removeAvailability_spec [⟨1, false⟩, ⟨2, false⟩, ⟨3, true⟩] ⟨2, false⟩).2 (by decide)

/-- C4: `inConflict(current, replacement)` holds exactly when the two version
vectors are concurrent, or the replacement carries a strictly greater counter
for the local device's short id than the current version does. -/
theorem C4_inConflict_iff (shortID : Nat) (current replacement : VVector) :
    inConflict shortID current replacement = true ↔
      (current.Concurrent replacement = true ∨
        replacement.Counter shortID > current.Counter shortID) := by
  unfold inConflict
  by_cases hc : current.Concurrent replacement = true
  · simp [hc]
  · by_cases hn : replacement.Counter shortID > current.Counter shortID
    · simp [hc, hn]
    · simp [hc, hn]

/-- C1: the code, not the claim — when `pullerRoutine` exhausts its candidates
after an attempted peer request that returned an error, the failure recorded
for the block is `errNoDevice`, not that last error (the inner `:=` shadows
the outer `lastError`, which stays nil).  Here a single candidate's request
fails with "connection refused", yet the block fails with `errNoDevice`. -/
theorem C1_pullerRoutine_errNoDevice_bug :
    pullerCandidateLoop (fun _ => 0) (fun _ => .requestError "connection refused")
        [⟨1, false⟩] none = .failed "pull" errNoDevice ∧
      pullerCandidateLoop (fun _ => 0) (fun _ => .requestError "connection refused")
          [⟨1, false⟩] none ≠ .failed "pull" "connection refused" := by
  constructor
  · simp [pullerCandidateLoop, leastBusy, removeAvailability]
  · simp [pullerCandidateLoop, leastBusy, removeAvailability, errNoDevice]

theorem servePullLoop_pause (s p : Nat) (errs : List (String × String))
    (front rest : List Nat) (tries : Nat)
    (hpos : ∀ x ∈ front, 0 < x) (hlen : front.length + tries = 11) (htr : tries ≤ 10) :
    servePullLoop s p errs (front ++ rest) tries =
      some ({ paused := true, timerReset := p, publishedFolderErrors := errs.length > 0,
              recordedPrevVer := false }, 11) := by
  induction front generalizing tries with
  | nil => simp at hlen; omega
  | cons c cs ih =>
      have hc : 0 < c := hpos c (List.mem_cons_self _ _)
      have hlen' : cs.length + (tries + 1) = 11 := by
        simp [List.length_cons] at hlen
        omega
      simp only [List.cons_append, servePullLoop]
      rw [if_neg (by omega : ¬c = 0)]
      by_cases h10 : tries + 1 > 10
      · rw [if_pos h10]
        have h11 : tries + 1 = 11 := by omega
        rw [h11]
      · rw [if_neg h10]
        exact ih (tries + 1) (fun x hx => hpos x (List.mem_cons_of_mem _ hx)) hlen' (by omega)

theorem servePullLoop_sleep (s p : Nat) (errs : List (String × String))
    (front rest : List Nat) (tries : Nat)
    (hpos : ∀ x ∈ front, 0 < x) (hlen : front.length + tries ≤ 10) :
    servePullLoop s p errs (front ++ 0 :: rest) tries =
      some ({ paused := false, timerReset := s, publishedFolderErrors := false,
              recordedPrevVer := true }, tries + front.length + 1) := by
  induction front generalizing tries with
  | nil => simp [servePullLoop]
  | cons c cs ih =>
      have hc : 0 < c := hpos c (List.mem_cons_self _ _)
      have hlen' : cs.length + (tries + 1) ≤ 10 := by
        simp [List.length_cons] at hlen
        omega
      simp only [List.cons_append, servePullLoop]
      rw [if_neg (by omega : ¬c = 0), if_neg (by omega : ¬tries + 1 > 10)]
      rw [show cs.append (0 :: rest) = cs ++ 0 :: rest from rfl,
        ih (tries + 1) (fun x hx => hpos x (List.mem_cons_of_mem _ hx)) hlen']
      congr 1
      congr 1
      simp [List.length_cons]
      omega

/-- C3 (amended): in the `rwFolder.Serve` pull loop, pausing requires *more
than ten* tries — it happens after the 11th consecutive iteration returning
`changed > 0`, resetting the pull timer to the pause interval and publishing a
`FolderErrors` event exactly when the per-file error map is non-empty; an
iteration returning `changed == 0` instead records `prevVer` and reschedules
after the sleep interval. -/
theorem C3_serve_backoff (s p : Nat) (errs : List (String × String)) :
    (∀ front rest, (∀ x ∈ front, 0 < x) → front.length = 11 →
      servePullLoop s p errs (front ++ rest) 0 =
        some ({ paused := true, timerReset := p, publishedFolderErrors := errs.length > 0,
                recordedPrevVer := false }, 11)) ∧
    (∀ front rest, (∀ x ∈ front, 0 < x) → front.length ≤ 10 →
      servePullLoop s p errs (front ++ 0 :: rest) 0 =
        some ({ paused := false, timerReset := s, publishedFolderErrors := false,
                recordedPrevVer := true }, front.length + 1)) := by
  constructor
  · intro front rest hpos hlen
    exact servePullLoop_pause s p errs front rest 0 hpos (by omega) (by omega)
  · intro front rest hpos hlen
    have := servePullLoop_sleep s p errs front rest 0 hpos (by omega)
    simpa using this

/-- Witness for C3: eleven progress-reporting iterations pause the folder with
the pause-interval timer and a published FolderErrors event (non-empty error
map). -/
theorem C3_serve_backoff_witness :
    servePullLoop 10 60 [("f", "boom")]
        ([1, 1, 1, 1, 1, 1, 1, 1, 1, 1, 1] ++ []) 0 =
      some ({ paused := true, timerReset := 60, publishedFolderErrors := true,
              recordedPrevVer := false }, 11) := by
  have h := (C3_serve_backoff 10 60 [("f", "boom")]).1
    [1, 1, 1, 1, 1, 1, 1, 1, 1, 1, 1] [] (by decide) (by decide)
  simpa using h

/-- C3 counterexample: ten consecutive iterations with `changed > 0` do *not*
pause the folder — the loop runs an 11th iteration (which here returns 0 and
exits through the sleep path, never pausing). -/
theorem C3_counterexample :
    ([1, 1, 1, 1, 1, 1, 1, 1, 1, 1] : List Nat).all (0 < ·) = true ∧
      servePullLoop 10 60 [] ([1, 1, 1, 1, 1, 1, 1, 1, 1, 1] ++ [0]) 0 =
        some ({ paused := false, timerReset := 10, publishedFolderErrors := false,
                recordedPrevVer := true }, 11) := by
  constructor
  · decide
  · decide

theorem receivedFileFold (l : List DbUpdateJob) :
    l.foldl
        (fun acc job =>
          if job.file.IsInvalid || (job.file.IsDirectory && !job.file.IsSymlink) then acc
          else if job.jobType &&& (dbUpdateHandleFile ||| dbUpdateDeleteFile) = 0 then acc
          else some job.file)
        none =
      ((l.filter qualifiesForReceivedFile).map (·.file)).getLast? := by
  induction l using List.reverseRecOn with
  | nil => rfl
  | append_singleton l j ih =>
      rw [List.foldl_append]
      simp only [List.foldl_cons, List.foldl_nil]
      rw [List.filter_append, List.map_append]
      by_cases h1 : (j.file.IsInvalid || (j.file.IsDirectory && !j.file.IsSymlink)) = true
      · rw [if_pos h1, ih]
        have hqf : qualifiesForReceivedFile j = false := by
          simp [qualifiesForReceivedFile, h1]
        rw [show List.filter qualifiesForReceivedFile [j] = [] from by
          simp [List.filter, hqf]]
        simp
      · rw [if_neg h1]
        by_cases h2 : j.jobType &&& (dbUpdateHandleFile ||| dbUpdateDeleteFile) = 0
        · rw [if_pos h2, ih]
          have hqf : qualifiesForReceivedFile j = false := by
            simp [qualifiesForReceivedFile, h2]
          rw [show List.filter qualifiesForReceivedFile [j] = [] from by
            simp [List.filter, hqf]]
          simp
        · rw [if_neg h2]
          have hqf : qualifiesForReceivedFile j = true := by
            rw [Bool.not_eq_true] at h1
            simp [qualifiesForReceivedFile, h1, h2]
          rw [show List.filter qualifiesForReceivedFile [j] = [j] from by
            simp [List.filter, hqf]]
          simp [List.getLast?_concat]

theorem handleBatch_snd (batch : List DbUpdateJob) :
    (handleBatch batch).2 =
      ((batch.filter qualifiesForReceivedFile).map (·.file)).getLast? :=
  receivedFileFold batch

theorem dbUpdaterRun_props (es : List DbEvent) (batch : List DbUpdateJob)
    (hlen : batch.length < maxBatchSize)
    (hstrip : ∀ j ∈ batch, j.file.localVersion = 0) :
    ∀ tb ∈ dbUpdaterRun es batch,
      tb.2 ≠ [] ∧ tb.2.length ≤ maxBatchSize ∧ (∀ j ∈ tb.2, j.file.localVersion = 0) ∧
        (tb.1 = FlushTrigger.size → tb.2.length = maxBatchSize) := by
  induction es generalizing batch with
  | nil =>
      intro tb htb
      simp only [dbUpdaterRun] at htb
      split at htb
      · rename_i hpos
        simp only [List.mem_singleton] at htb
        subst htb
        exact ⟨List.ne_nil_of_length_pos (by omega : 0 < batch.length),
          (by omega : batch.length ≤ maxBatchSize), hstrip,
          fun hcontra => by cases hcontra⟩
      · cases htb
  | cons e es ih =>
      cases e with
      | job j =>
          intro tb htb
          simp only [dbUpdaterRun] at htb
          split at htb
          · rename_i hfull
            rcases List.mem_cons.mp htb with rfl | hmem
            · refine ⟨List.ne_nil_of_length_pos ?_, le_of_eq hfull, ?_, fun _ => hfull⟩
              · rw [hfull]
                decide
              · intro j' hj'
                rcases List.mem_append.mp hj' with hj1 | hj2
                · exact hstrip j' hj1
                · simp only [List.mem_singleton] at hj2
                  subst hj2
                  rfl
            · exact ih [] (by decide) (by simp) tb hmem
          · rename_i hnotfull
            refine ih _ ?_ ?_ tb htb
            · simp only [List.length_append, List.length_cons, List.length_nil] at hnotfull ⊢
              omega
            · intro j' hj'
              rcases List.mem_append.mp hj' with hj1 | hj2
              · exact hstrip j' hj1
              · simp only [List.mem_singleton] at hj2
                subst hj2
                rfl
      | tick =>
          intro tb htb
          simp only [dbUpdaterRun] at htb
          split at htb
          · rename_i hpos
            rcases List.mem_cons.mp htb with rfl | hmem
            · exact ⟨List.ne_nil_of_length_pos (by omega : 0 < batch.length),
                (by omega : batch.length ≤ maxBatchSize), hstrip,
                fun hcontra => by cases hcontra⟩
            · exact ih [] (by decide) (by simp) tb hmem
          · exact ih [] (by decide) (by simp) tb htb

/-- C2 (amended): every batch flushed by `dbUpdaterRoutine` is non-empty and
at most 1000 jobs long; a flush triggered by the size check holds exactly 1000
jobs (the other flushes come from the ticker on a non-empty batch or from
channel close with jobs remaining); every record was LocalVersion-stripped on
arrival, before `updateLocals` sees it; and `receivedFile` is notified with
the last record of the batch that is non-invalid, not a non-symlink directory,
*and* whose job type passes the bitmask test
`jobType & (dbUpdateHandleFile|dbUpdateDeleteFile) != 0` — so, the iota
constants being 2, 3 and 4, shortcut-file jobs (and handle-dir jobs) never
trigger the notification. -/
theorem C2_dbUpdaterRoutine_spec (es : List DbEvent) :
    ∀ tb ∈ dbUpdaterRun es [],
      tb.2 ≠ [] ∧
        tb.2.length ≤ maxBatchSize ∧
        (tb.1 = FlushTrigger.size → tb.2.length = maxBatchSize) ∧
        (∀ j ∈ tb.2, j.file.localVersion = 0) ∧
        (handleBatch tb.2).2 =
          ((tb.2.filter qualifiesForReceivedFile).map (·.file)).getLast? := by
  intro tb htb
  obtain ⟨h1, h2, h3, h4⟩ := dbUpdaterRun_props es [] (by decide) (by simp) tb htb
  exact ⟨h1, h2, h4, h3, handleBatch_snd tb.2⟩

/-- Witness for C2: one handle-file job arrives, then the ticker fires; the
flush carries the stripped record and notifies `receivedFile` with it. -/
theorem C2_dbUpdaterRoutine_witness :
    (handleBatch [⟨⟨"a", false, false, false, false, false, 0, 1, ⟨[]⟩, 0, []⟩,
        dbUpdateHandleFile⟩]).2 =
      some ⟨"a", false, false, false, false, false, 0, 1, ⟨[]⟩, 0, []⟩ ∧
      ([⟨⟨"a", false, false, false, false, false, 0, 1, ⟨[]⟩, 0, []⟩, dbUpdateHandleFile⟩] :
        List DbUpdateJob) ≠ [] := by
  have h := C2_dbUpdaterRoutine_spec
    [DbEvent.job ⟨⟨"a", false, false, false, false, false, 0, 1, ⟨[]⟩, 7, []⟩,
        dbUpdateHandleFile⟩, DbEvent.tick]
    (FlushTrigger.tick,
      [⟨⟨"a", false, false, false, false, false, 0, 1, ⟨[]⟩, 0, []⟩, dbUpdateHandleFile⟩])
    (by decide)
  refine ⟨?_, h.1⟩
  rw [h.2.2.2.2]
  decide

/-- C2 counterexample: a batch whose only record is a non-invalid,
non-directory file with job type `dbUpdateShortcutFile` is flushed, yet
`handleBatch` produces no `receivedFile` notification for it (the claim's
"iff the batch contains at least one non-invalid non-directory record"
requires one): `4 &&& (2|||3) = 0` skips shortcut jobs. -/
theorem C2_dbUpdaterRoutine_counterexample :
    dbUpdaterRun
        [DbEvent.job ⟨⟨"s", false, false, false, false, false, 0, 1, ⟨[]⟩, 0, []⟩,
            dbUpdateShortcutFile⟩] [] =
      [(FlushTrigger.close,
        [⟨⟨"s", false, false, false, false, false, 0, 1, ⟨[]⟩, 0, []⟩,
            dbUpdateShortcutFile⟩])] ∧
      (⟨"s", false, false, false, false, false, 0, 1, ⟨[]⟩, 0, []⟩ : FileInfo).IsInvalid
        = false ∧
      (⟨"s", false, false, false, false, false, 0, 1, ⟨[]⟩, 0, []⟩ : FileInfo).IsDirectory
        = false ∧
      (handleBatch [⟨⟨"s", false, false, false, false, false, 0, 1, ⟨[]⟩, 0, []⟩,
          dbUpdateShortcutFile⟩]).2 = none := by
  decide

/-- C8: when `deleteFile` handles an incoming deletion and the current local
record's version is in conflict with the deletion's version, the file is moved
to a conflict copy (neither plainly removed nor archived by the versioner),
and any `dbUpdateDeleteFile` job it records carries the incoming version
merged with the local version. -/
theorem C8_deleteFile_conflict (shortID : Nat) (hasVersioner : Bool) (c file : FileInfo)
    (opErr lstatErr : Option FsErr)
    (hconf : inConflict shortID c.version file.version = true) :
    (deleteFile shortID hasVersioner (some c) file opErr lstatErr).action =
        DeleteFileAction.conflictMove ∧
      ∀ j, (deleteFile shortID hasVersioner (some c) file opErr lstatErr).job = some j →
        j.jobType = dbUpdateDeleteFile ∧
          j.file.version = file.version.Merge c.version := by
  constructor
  · by_cases hop : opErr = none ∨ opErr = some FsErr.notExist
    · simp [deleteFile, hconf, hop]
    · cases lstatErr with
      | none => simp [deleteFile, hconf, hop]
      | some serr =>
          by_cases hperm : serr = FsErr.permission
          · simp [deleteFile, hconf, hop, hperm]
          · simp [deleteFile, hconf, hop, hperm]
  · intro j hj
    by_cases hop : opErr = none ∨ opErr = some FsErr.notExist
    · simp [deleteFile, hconf, hop] at hj
      subst hj
      exact ⟨rfl, by simp⟩
    · cases lstatErr with
      | none => simp [deleteFile, hconf, hop] at hj
      | some serr =>
          by_cases hperm : serr = FsErr.permission
          · simp [deleteFile, hconf, hop, hperm] at hj
          · simp [deleteFile, hconf, hop, hperm] at hj
            subst hj
            exact ⟨rfl, by simp⟩

/-- Witness for C8: concurrent versions `{1:2}` and `{2:2}`; the deletion
takes the conflict-move path and records the merged version. -/
theorem C8_deleteFile_conflict_witness :
    (deleteFile 9 false
        (some ⟨"c", false, false, false, false, false, 0, 1, ⟨[(1, 2)]⟩, 0, []⟩)
        ⟨"c", false, false, false, true, false, 0, 0, ⟨[(2, 2)]⟩, 0, []⟩ none none).action =
      DeleteFileAction.conflictMove ∧
    (deleteFile 9 false
        (some ⟨"c", false, false, false, false, false, 0, 1, ⟨[(1, 2)]⟩, 0, []⟩)
        ⟨"c", false, false, false, true, false, 0, 0, ⟨[(2, 2)]⟩, 0, []⟩ none none).job =
      some ⟨⟨"c", false, false, false, true, false, 0, 0,
        VVector.Merge ⟨[(2, 2)]⟩ ⟨[(1, 2)]⟩, 0, []⟩, dbUpdateDeleteFile⟩ := by
  have h := C8_deleteFile_conflict 9 false
    ⟨"c", false, false, false, false, false, 0, 1, ⟨[(1, 2)]⟩, 0, []⟩
    ⟨"c", false, false, false, true, false, 0, 0, ⟨[(2, 2)]⟩, 0, []⟩ none none (by decide)
  exact ⟨h.1, by decide⟩

/-- C9: `shortcutFile` takes its `FileInfo` by value, so the version merge it
performs is invisible to `handleFile`: when the metadata-only shortcut is
taken for a regular file and `shortcutFile` succeeds, the emitted
`dbUpdateShortcutFile` job carries the target with its original, unmerged
version — even though `shortcutFile`'s local copy ended with the merged
version. -/
theorem C9_shortcutFile_merge_invisible (folderIgnorePerms : Bool)
    (chmodErr chtimesErr statErr symlinkErr : Option String)
    (cur file : FileInfo) (lstatResult : Option (Int × Int)) (vmtime : Int → Int)
    (cfs : Bool) (free blocksSize : Int)
    (hblocks : (cur.blocks.length = file.blocks.length &&
      BlocksEqual cur.blocks file.blocks) = true)
    (hsym : file.IsSymlink = false)
    (hok : (shortcutFile folderIgnorePerms chmodErr chtimesErr statErr (some cur) file).1
      = none) :
    handleFile folderIgnorePerms (some cur) file chmodErr chtimesErr statErr symlinkErr
        lstatResult vmtime cfs free blocksSize =
      HandleFileAction.shortcutDone (some ⟨file, dbUpdateShortcutFile⟩) ∧
      (⟨file, dbUpdateShortcutFile⟩ : DbUpdateJob).file.version = file.version ∧
      (shortcutFile folderIgnorePerms chmodErr chtimesErr statErr (some cur) file).2.version
        = file.version.Merge cur.version := by
  refine ⟨?_, rfl, ?_⟩
  · simp [handleFile, hblocks, hsym, hok]
  · unfold shortcutFile at hok ⊢
    by_cases hip : ignorePermissions folderIgnorePerms file = true
    · simp only [hip, if_true] at hok ⊢
      cases chtimesErr with
      | none => simp
      | some e =>
          cases statErr with
          | none => simp
          | some e' => simp at hok
    · have hcond : (if ignorePermissions folderIgnorePerms file = true
          then (none : Option String) else chmodErr) = chmodErr := by
        simp [hip]
      rw [hcond] at hok ⊢
      cases chmodErr with
      | some e => simp at hok
      | none =>
          cases chtimesErr with
          | none => simp
          | some e =>
              cases statErr with
              | none => simp
              | some e' => simp at hok

/-- Witness for C9: current version `{1:5}`, incoming `{2:3}`, identical block
lists; the emitted job keeps version `{2:3}` while `shortcutFile`'s local copy
ends with the merge. -/
theorem C9_shortcutFile_merge_invisible_witness :
    handleFile false
        (some ⟨"f", false, false, false, false, false, 0, 1, ⟨[(1, 5)]⟩, 0, [⟨0, 1, 42⟩]⟩)
        ⟨"f", false, false, false, false, false, 3, 1, ⟨[(2, 3)]⟩, 0, [⟨0, 1, 42⟩]⟩
        none none none none none (fun t => t) false 0 0 =
      HandleFileAction.shortcutDone
        (some ⟨⟨"f", false, false, false, false, false, 3, 1, ⟨[(2, 3)]⟩, 0, [⟨0, 1, 42⟩]⟩,
          dbUpdateShortcutFile⟩) ∧
    (shortcutFile false none none none
        (some ⟨"f", false, false, false, false, false, 0, 1, ⟨[(1, 5)]⟩, 0, [⟨0, 1, 42⟩]⟩)
        ⟨"f", false, false, false, false, false, 3, 1, ⟨[(2, 3)]⟩, 0, [⟨0, 1, 42⟩]⟩).2.version =
      VVector.Merge ⟨[(2, 3)]⟩ ⟨[(1, 5)]⟩ := by
  have h := C9_shortcutFile_merge_invisible false none none none none
    ⟨"f", false, false, false, false, false, 0, 1, ⟨[(1, 5)]⟩, 0, [⟨0, 1, 42⟩]⟩
    ⟨"f", false, false, false, false, false, 3, 1, ⟨[(2, 3)]⟩, 0, [⟨0, 1, 42⟩]⟩
    none (fun t => t) false 0 0 (by decide) (by decide) (by decide)
  exact ⟨h.1, h.2.2⟩

/-- C7 (amended): for a needed regular file whose local record exists, is
neither directory nor symlink, and whose block list does *not* equal the
target's (so the metadata-only shortcut is not taken), a successful `Lstat`
whose override-adjusted mtime or size disagrees with the local record makes
`handleFile` schedule a background rescan instead of starting the pipeline. -/
theorem C7_staleness_guard (folderIgnorePerms : Bool)
    (chmodErr chtimesErr statErr symlinkErr : Option String)
    (cur file : FileInfo) (diskMtime diskSize : Int) (vmtime : Int → Int)
    (cfs : Bool) (free blocksSize : Int)
    (hnoshort : (cur.blocks.length = file.blocks.length &&
      BlocksEqual cur.blocks file.blocks) = false)
    (hdir : cur.IsDirectory = false) (hsymc : cur.IsSymlink = false)
    (hmismatch : vmtime diskMtime ≠ cur.modified ∨ diskSize ≠ cur.Size) :
    handleFile folderIgnorePerms (some cur) file chmodErr chtimesErr statErr symlinkErr
        (some (diskMtime, diskSize)) vmtime cfs free blocksSize =
      HandleFileAction.rescanScheduled := by
  simp [handleFile, hnoshort, hdir, hsymc, hmismatch]

/-- Witness for C7: local record with one block, target with a different
block; the on-disk mtime 999 disagrees with the recorded mtime 0, so the
guard schedules a rescan. -/
theorem C7_staleness_guard_witness :
    handleFile false
        (some ⟨"m", false, false, false, false, false, 0, 1, ⟨[]⟩, 0, [⟨0, 1, 42⟩]⟩)
        ⟨"m", false, false, false, false, false, 5, 1, ⟨[]⟩, 0, [⟨0, 1, 43⟩]⟩
        none none none none (some (999, 1)) (fun t => t) false 0 0 =
      HandleFileAction.rescanScheduled :=
  C7_staleness_guard false none none none none
    ⟨"m", false, false, false, false, false, 0, 1, ⟨[]⟩, 0, [⟨0, 1, 42⟩]⟩
    ⟨"m", false, false, false, false, false, 5, 1, ⟨[]⟩, 0, [⟨0, 1, 43⟩]⟩
    999 1 (fun t => t) false 0 0 (by decide) (by decide) (by decide) (by decide)

/-- C7 counterexample: the metadata-only shortcut is checked *before* the
staleness guard — a needed regular file whose block list equals the local
record's takes the shortcut even though the on-disk mtime (999) differs from
the index record (0); no rescan is scheduled, contradicting the claim as
stated. -/
theorem C7_staleness_guard_counterexample :
    handleFile false
        (some ⟨"m", false, false, false, false, false, 0, 1, ⟨[]⟩, 0, [⟨0, 1, 42⟩]⟩)
        ⟨"m", false, false, false, false, false, 5, 1, ⟨[]⟩, 0, [⟨0, 1, 42⟩]⟩
        none none none none (some (999, 1)) (fun t => t) false 0 0 =
      HandleFileAction.shortcutDone
        (some ⟨⟨"m", false, false, false, false, false, 5, 1, ⟨[]⟩, 0, [⟨0, 1, 42⟩]⟩,
          dbUpdateShortcutFile⟩) ∧
      ((fun t : Int => t) 999 ≠
        (⟨"m", false, false, false, false, false, 0, 1, ⟨[]⟩, 0, [⟨0, 1, 42⟩]⟩ :
          FileInfo).modified) ∧
      handleFile false
          (some ⟨"m", false, false, false, false, false, 0, 1, ⟨[]⟩, 0, [⟨0, 1, 42⟩]⟩)
          ⟨"m", false, false, false, false, false, 5, 1, ⟨[]⟩, 0, [⟨0, 1, 42⟩]⟩
          none none none none (some (999, 1)) (fun t => t) false 0 0 ≠
        HandleFileAction.rescanScheduled := by
  refine ⟨by decide, by decide, by decide⟩

/-- C6 (amended): unless the file is already a conflict copy (base name
containing ".sync-conflict-", in which case it is removed without preserving
another copy), `moveForConflict` renames the existing file to
`<stem>.sync-conflict-<timestamp><ext>` beside it; `maxConflicts == 0` removes
without preserving a copy; `maxConflicts < 0` never prunes; `maxConflicts > 0`
prunes the lexicographically smallest (oldest) conflict copies so that at most
`maxConflicts` remain; a non-existent source is not an error. -/
theorem C6_moveForConflict_spec (maxC : Int) (marker : Bool) (stem ext now : String)
    (srcExists : Bool) (opErr : Option String) (globResult : Option (List String)) :
    ∀ r, r = moveForConflict maxC marker stem ext now srcExists opErr globResult →
      (marker = false → ¬maxC = 0 → srcExists = true → opErr = none →
        r.renamedTo = some (stem ++ ".sync-conflict-" ++ now ++ ext) ∧ r.removed = false) ∧
      (marker = true → r.renamedTo = none ∧ r.pruned = [] ∧
        (srcExists = true → opErr = none → r.removed = true)) ∧
      (marker = false → maxC = 0 → r.renamedTo = none ∧ r.pruned = [] ∧
        (srcExists = true → opErr = none → r.removed = true)) ∧
      (maxC < 0 → r.pruned = []) ∧
      (marker = false → 0 < maxC → ∀ ms, globResult = some ms → maxC < (ms.length : Int) →
        r.pruned = (sortConflictsDesc ms).drop maxC.toNat ∧
          (ms.length : Int) - (r.pruned.length : Int) ≤ maxC ∧
          (∀ q ∈ r.pruned, ∀ k ∈ (sortConflictsDesc ms).take maxC.toNat, q ≤ k)) ∧
      (srcExists = false → r.err = none) := by
  intro r hr
  subst hr
  refine ⟨?_, ?_, ?_, ?_, ?_, ?_⟩
  · intro hm hmc hsrc hop
    simp [moveForConflict, hm, hmc, hsrc, hop]
  · intro hm
    cases hsrc : srcExists with
    | true =>
        cases hop : opErr with
        | none => simp [moveForConflict, hm, hsrc, hop]
        | some e => simp [moveForConflict, hm, hsrc, hop]
    | false => simp [moveForConflict, hm, hsrc]
  · intro hm hmc
    cases hsrc : srcExists with
    | true =>
        cases hop : opErr with
        | none => simp [moveForConflict, hm, hmc, hsrc, hop]
        | some e => simp [moveForConflict, hm, hmc, hsrc, hop]
    | false => simp [moveForConflict, hm, hmc, hsrc]
  · intro hneg
    have hng : ¬maxC > -1 := by omega
    by_cases hm : marker = true
    · cases hsrc : srcExists with
      | true => cases hop : opErr with
        | none => simp [moveForConflict, hm, hsrc, hop]
        | some e => simp [moveForConflict, hm, hsrc, hop]
      | false => simp [moveForConflict, hm, hsrc]
    · have h0 : ¬maxC = 0 := by omega
      simp [moveForConflict, hm, h0, hng]
  · intro hm hpos ms hg hlen
    have hng : maxC > -1 := by omega
    have h0 : ¬maxC = 0 := by omega
    have hlt : (ms.length : Int) > maxC := hlen
    constructor
    · simp [moveForConflict, hm, h0, hg, hng, hlt]
    constructor
    · have hpr : (moveForConflict maxC marker stem ext now srcExists opErr
          globResult).pruned = (sortConflictsDesc ms).drop maxC.toNat := by
        simp [moveForConflict, hm, h0, hg, hng, hlt]
      rw [hpr]
      have hslen : (sortConflictsDesc ms).length = ms.length :=
        (List.perm_insertionSort _ ms).length_eq
      have hdlen := List.length_drop maxC.toNat (sortConflictsDesc ms)
      rw [hdlen, hslen]
      omega
    · intro q hq k hk
      have hpr : (moveForConflict maxC marker stem ext now srcExists opErr
          globResult).pruned = (sortConflictsDesc ms).drop maxC.toNat := by
        simp [moveForConflict, hm, h0, hg, hng, hlt]
      rw [hpr] at hq
      haveI h1 : IsTotal String (fun a b => b ≤ a) := ⟨fun a b => le_total b a⟩
      haveI h2 : IsTrans String (fun a b => b ≤ a) :=
        ⟨fun a b c hab hbc => le_trans hbc hab⟩
      exact (List.sorted_insertionSort (fun a b : String => b ≤ a)
        ms).rel_of_mem_take_of_mem_drop hk hq
  · intro hsrc
    by_cases hm : marker = true
    · simp [moveForConflict, hm, hsrc]
    · by_cases h0 : maxC = 0
      · simp [moveForConflict, hm, h0, hsrc]
      · simp [moveForConflict, hm, h0, hsrc]

/-- Witness for C6: a fresh conflict (cap 2, no marker, existing source,
successful rename) gets the timestamped conflict name, and a negative cap
never prunes. -/
theorem C6_moveForConflict_witness :
    (moveForConflict 2 false "a" ".txt" "20240101-120000" true none (some [])).renamedTo =
      some ("a" ++ ".sync-conflict-" ++ "20240101-120000" ++ ".txt") ∧
    (moveForConflict (-1) false "a" ".txt" "20240101-120000" true none
      (some ["a.sync-conflict-20220101-000000.txt"])).pruned = [] := by
  have h1 := C6_moveForConflict_spec 2 false "a" ".txt" "20240101-120000" true none
    (some []) _ rfl
  have h2 := C6_moveForConflict_spec (-1) false "a" ".txt" "20240101-120000" true none
    (some ["a.sync-conflict-20220101-000000.txt"]) _ rfl
  exact ⟨(h1.1 rfl (by decide) rfl rfl).1, h2.2.2.2.1 (by decide)⟩

/-- C6 counterexample: a file that is itself a conflict copy is not renamed to
a fresh conflict name — it is removed outright (here with `maxConflicts = 5`
and an existing source), contradicting the claim's unconditional "renames the
existing file". -/
theorem C6_moveForConflict_counterexample :
    (moveForConflict 5 true "a" ".txt" "20240101-120000" true none (some [])).renamedTo
        = none ∧
      (moveForConflict 5 true "a" ".txt" "20240101-120000" true none (some [])).removed
        = true := by
  refine ⟨by decide, by decide⟩

theorem swapRemoveFirst_eq_none_iff (p : FileInfo → Bool) (l : List FileInfo) :
    swapRemoveFirst p l = none ↔ ∀ x ∈ l, p x = false := by
  induction l with
  | nil => simp [swapRemoveFirst]
  | cons x xs ih =>
      by_cases hx : p x = true
      · simp [swapRemoveFirst, hx]
      · have hx' : p x = false := by
          rw [Bool.not_eq_true] at hx
          exact hx
        cases hsw : swapRemoveFirst p xs with
        | some pr =>
            simp only [swapRemoveFirst, hx', Bool.false_eq_true, if_false, hsw]
            constructor
            · intro hcontra
              cases hcontra
            · intro hall
              have hnone : swapRemoveFirst p xs = none :=
                ih.mpr (fun y hy => hall y (List.mem_cons_of_mem _ hy))
              rw [hsw] at hnone
              cases hnone
        | none =>
            simp only [swapRemoveFirst, hx', Bool.false_eq_true, if_false, hsw]
            constructor
            · intro _ y hy
              rcases List.mem_cons.mp hy with rfl | hy'
              · exact hx'
              · exact ih.mp hsw y hy'
            · intro _
              trivial

theorem swapRemoveFirst_some_mem (p : FileInfo → Bool) (l : List FileInfo)
    (c : FileInfo) (rest : List FileInfo) (h : swapRemoveFirst p l = some (c, rest)) :
    c ∈ l ∧ p c = true := by
  induction l generalizing rest with
  | nil => cases h
  | cons x xs ih =>
      by_cases hx : p x = true
      · simp only [swapRemoveFirst, hx, if_true, Option.some.injEq, Prod.mk.injEq] at h
        obtain ⟨hc, -⟩ := h
        subst hc
        exact ⟨List.mem_cons_self _ _, hx⟩
      · have hx' : p x = false := by
          rw [Bool.not_eq_true] at hx
          exact hx
        cases hsw : swapRemoveFirst p xs with
        | some pr =>
            obtain ⟨c', rest'⟩ := pr
            simp only [swapRemoveFirst, hx', Bool.false_eq_true, if_false, hsw,
              Option.some.injEq, Prod.mk.injEq] at h
            obtain ⟨hc, -⟩ := h
            subst hc
            obtain ⟨hmem, hp⟩ := ih rest' hsw
            exact ⟨List.mem_cons_of_mem _ hmem, hp⟩
        | none =>
            simp only [swapRemoveFirst, hx', Bool.false_eq_true, if_false, hsw] at h
            cases h

theorem find?_filter_of_imp (l : List (String × FileInfo))
    (p q : String × FileInfo → Bool) (h : ∀ x, p x = true → q x = true) :
    (l.filter q).find? p = l.find? p := by
  induction l with
  | nil => rfl
  | cons x l ih =>
      rw [List.filter_cons]
      by_cases hq : q x = true
      · rw [if_pos hq, List.find?_cons, List.find?_cons]
        cases hp : p x <;> simp [hp, ih]
      · rw [if_neg hq, ih, List.find?_cons]
        have hp : p x = false := by
          cases hpx : p x
          · rfl
          · exact absurd (h x hpx) hq
        simp [hp]

theorem fdGet_fdSet_ne (m : List (String × FileInfo)) (k : String) (v : FileInfo)
    (n : String) (h : ¬k = n) : fdGet (fdSet m k v) n = fdGet m n := by
  unfold fdGet fdSet
  rw [List.find?_cons]
  have hkn : (decide (((k, v) : String × FileInfo).1 = n)) = false := by
    simp [h]
  rw [hkn]
  exact congrArg (Option.map _)
    (find?_filter_of_imp m _ _ (fun x hx => by
      simp only [decide_eq_true_eq] at hx
      simp only [decide_eq_true_eq]
      exact fun hxk => h (hxk.symm.trans hx)))

theorem fdGet_fdDelete_self (m : List (String × FileInfo)) (k : String) :
    fdGet (fdDelete m k) k = none := by
  unfold fdGet fdDelete
  rw [List.find?_eq_none.mpr]
  · rfl
  · intro x hx
    have := List.of_mem_filter hx
    simp only [decide_eq_true_eq] at this
    simp [this]

theorem fdGet_fdDelete_of_none (m : List (String × FileInfo)) (k n : String)
    (h : fdGet m n = none) : fdGet (fdDelete m k) n = none := by
  unfold fdGet fdDelete
  unfold fdGet at h
  have hfind : m.find? (fun p => p.1 = n) = none := by
    cases hf : m.find? (fun p => p.1 = n) with
    | none => rfl
    | some pr => rw [hf] at h; cases h
  rw [List.find?_eq_none.mpr]
  · rfl
  · intro x hx
    exact List.find?_eq_none.mp hfind x (List.mem_of_mem_filter hx)

theorem fdGet_none_keys (m : List (String × FileInfo)) (n : String)
    (h : fdGet m n = none) : ∀ pr ∈ m, ¬pr.1 = n := by
  unfold fdGet at h
  have hfind : m.find? (fun p => p.1 = n) = none := by
    cases hf : m.find? (fun p => p.1 = n) with
    | none => rfl
    | some pr => rw [hf] at h; cases h
  intro pr hpr
  have := List.find?_eq_none.mp hfind pr hpr
  simpa using this

theorem drainStep_preserves_absent (st : DrainState) (e : QueueEntry) (n : String)
    (h : fdGet st.fileDeletions n = none) (hn : addsDeletionNamed e n = false) :
    fdGet (drainStep st e).fileDeletions n = none := by
  obtain ⟨g, cur⟩ := e
  cases g with
  | none => simpa [drainStep] using h
  | some fi =>
      by_cases hd : fi.IsDeleted = true
      · by_cases hdir : fi.IsDirectory = true
        · simpa [drainStep, classifyNeeded, hd, hdir] using h
        · have hdir' : fi.IsDirectory = false := by
            rw [Bool.not_eq_true] at hdir
            exact hdir
          have hname : ¬fi.name = n := by
            simp [addsDeletionNamed, hd, hdir'] at hn
            exact hn
          have hfd : (drainStep st ⟨some fi, cur⟩).fileDeletions =
              fdSet st.fileDeletions fi.name fi := by
            cases cur with
            | none => simp [drainStep, classifyNeeded, hd, hdir']
            | some df =>
                by_cases hdf : (!df.IsDeleted && !df.IsSymlink && !df.IsDirectory) = true
                · simp [drainStep, classifyNeeded, hd, hdir', hdf]
                · simp [drainStep, classifyNeeded, hd, hdir', hdf]
          rw [hfd, fdGet_fdSet_ne _ _ _ _ hname]
          exact h
      · have hd' : fi.IsDeleted = false := by
          rw [Bool.not_eq_true] at hd
          exact hd
        by_cases hdirs : (fi.IsDirectory && !fi.IsSymlink) = true
        · obtain ⟨hdi, hsy⟩ : fi.IsDirectory = true ∧ fi.IsSymlink = false := by
            simpa using hdirs
          simpa [drainStep, classifyNeeded, hd', hdi, hsy] using h
        · by_cases hsym : fi.IsSymlink = true
          · simpa [drainStep, classifyNeeded, hd', hsym] using h
          · have hsym' : fi.IsSymlink = false := by
              rw [Bool.not_eq_true] at hsym
              exact hsym
            have hdirf : fi.IsDirectory = false := by
              cases hv : fi.IsDirectory
              · rfl
              · exact absurd (by simp [hv, hsym']) hdirs
            cases hsw : swapRemoveFirst (fun candidate => BlocksEqual candidate.blocks fi.blocks)
                (bucketGet st.buckets (firstHash fi)) with
            | none => simpa [drainStep, classifyNeeded, hd', hdirf, hsym', hsw] using h
            | some pr =>
                obtain ⟨c, b'⟩ := pr
                have hfd : (drainStep st ⟨some fi, cur⟩).fileDeletions =
                    fdDelete st.fileDeletions c.name := by
                  simp [drainStep, classifyNeeded, hd', hdirf, hsym', hsw]
                rw [hfd]
                exact fdGet_fdDelete_of_none _ _ _ h

theorem drainRun_preserves_absent (es : List QueueEntry) (st : DrainState) (n : String)
    (h : fdGet st.fileDeletions n = none)
    (hns : ∀ e ∈ es, addsDeletionNamed e n = false) :
    fdGet (drainRun es st).fileDeletions n = none := by
  induction es generalizing st with
  | nil => simpa [drainRun] using h
  | cons e es ih =>
      simp only [drainRun, List.foldl_cons]
      exact ih (drainStep st e)
        (drainStep_preserves_absent st e n h (hns e (List.mem_cons_self _ _)))
        (fun e' he' => hns e' (List.mem_cons_of_mem _ he'))

/-- C5: in the queue drain of one puller iteration, a drained regular
non-symlink file is either renamed — exactly when some candidate in the bucket
of its first block hash has a fully equal block list, in which case that
candidate's pending entry leaves `fileDeletions` (and, as long as no later
entry re-adds a deletion under that name, nothing under that name is applied
in the deletion phase) — or dispatched to `handleFile`; never both. -/
theorem C5_rename_fetch_dichotomy (st : DrainState) (fi : FileInfo) (cur : Option FileInfo)
    (hdel : fi.IsDeleted = false) (hdir : fi.IsDirectory = false)
    (hsym : fi.IsSymlink = false) :
    ((∃ c ∈ bucketGet st.buckets (firstHash fi), BlocksEqual c.blocks fi.blocks = true) →
      ∃ c ∈ bucketGet st.buckets (firstHash fi),
        BlocksEqual c.blocks fi.blocks = true ∧
          (drainStep st ⟨some fi, cur⟩).renamed = st.renamed ++ [(c.name, fi)] ∧
          (drainStep st ⟨some fi, cur⟩).pipelined = st.pipelined ∧
          fdGet (drainStep st ⟨some fi, cur⟩).fileDeletions c.name = none) ∧
    ((¬∃ c ∈ bucketGet st.buckets (firstHash fi), BlocksEqual c.blocks fi.blocks = true) →
      (drainStep st ⟨some fi, cur⟩).pipelined = st.pipelined ++ [fi] ∧
        (drainStep st ⟨some fi, cur⟩).renamed = st.renamed) ∧
    (∀ es n, fdGet (drainStep st ⟨some fi, cur⟩).fileDeletions n = none →
      (∀ e ∈ es, addsDeletionNamed e n = false) →
      ∀ pr ∈ (drainRun es (drainStep st ⟨some fi, cur⟩)).fileDeletions, ¬pr.1 = n) := by
  have hcl : classifyNeeded fi cur st = (false, st) := by
    simp [classifyNeeded, hdel, hdir, hsym]
  refine ⟨?_, ?_, ?_⟩
  · intro hex
    have hne : swapRemoveFirst (fun candidate => BlocksEqual candidate.blocks fi.blocks)
        (bucketGet st.buckets (firstHash fi)) ≠ none := by
      intro hnone
      have hall := (swapRemoveFirst_eq_none_iff _ _).mp hnone
      obtain ⟨c, hc, hbe⟩ := hex
      have hfalse := hall c hc
      rw [hbe] at hfalse
      cases hfalse
    obtain ⟨pr, hsw⟩ := Option.ne_none_iff_exists'.mp hne
    obtain ⟨c, b'⟩ := pr
    obtain ⟨hmem, hp⟩ := swapRemoveFirst_some_mem _ _ _ _ hsw
    refine ⟨c, hmem, hp, ?_, ?_, ?_⟩
    · simp [drainStep, hcl, hsym, hsw]
    · simp [drainStep, hcl, hsym, hsw]
    · have hfd : (drainStep st ⟨some fi, cur⟩).fileDeletions =
          fdDelete st.fileDeletions c.name := by
        simp [drainStep, hcl, hsym, hsw]
      rw [hfd]
      exact fdGet_fdDelete_self _ _
  · intro hnex
    have hnone : swapRemoveFirst (fun candidate => BlocksEqual candidate.blocks fi.blocks)
        (bucketGet st.buckets (firstHash fi)) = none := by
      refine (swapRemoveFirst_eq_none_iff _ _).mpr (fun x hx => ?_)
      cases hbx : BlocksEqual x.blocks fi.blocks
      · rfl
      · exact absurd ⟨x, hx, hbx⟩ hnex
    constructor <;> simp [drainStep, hcl, hsym, hnone]
  · intro es n h hns pr hpr
    exact fdGet_none_keys _ _ (drainRun_preserves_absent es _ n h hns) pr hpr

/-- Witness for C5: a bucket holding one local candidate "old" whose single
block matches the needed target "new", with the deletion of "old" pending:
the step renames (no pipeline dispatch) and cancels the pending deletion. -/
theorem C5_rename_fetch_dichotomy_witness :
    (drainStep
        ⟨[(42, [⟨"old", false, false, false, false, false, 0, 1, ⟨[]⟩, 0, [⟨0, 1, 42⟩]⟩])],
          [("old", ⟨"old", false, false, true, false, false, 0, 0, ⟨[]⟩, 0, []⟩)],
          [], [], [], []⟩
        ⟨some ⟨"new", false, false, false, false, false, 0, 1, ⟨[]⟩, 0, [⟨0, 1, 42⟩]⟩,
          none⟩).renamed =
      [("old", ⟨"new", false, false, false, false, false, 0, 1, ⟨[]⟩, 0, [⟨0, 1, 42⟩]⟩)] ∧
    (drainStep
        ⟨[(42, [⟨"old", false, false, false, false, false, 0, 1, ⟨[]⟩, 0, [⟨0, 1, 42⟩]⟩])],
          [("old", ⟨"old", false, false, true, false, false, 0, 0, ⟨[]⟩, 0, []⟩)],
          [], [], [], []⟩
        ⟨some ⟨"new", false, false, false, false, false, 0, 1, ⟨[]⟩, 0, [⟨0, 1, 42⟩]⟩,
          none⟩).pipelined = [] ∧
    fdGet
        (drainStep
          ⟨[(42, [⟨"old", false, false, false, false, false, 0, 1, ⟨[]⟩, 0, [⟨0, 1, 42⟩]⟩])],
            [("old", ⟨"old", false, false, true, false, false, 0, 0, ⟨[]⟩, 0, []⟩)],
            [], [], [], []⟩
          ⟨some ⟨"new", false, false, false, false, false, 0, 1, ⟨[]⟩, 0, [⟨0, 1, 42⟩]⟩,
            none⟩).fileDeletions "old" = none := by
  have h := (C5_rename_fetch_dichotomy
    ⟨[(42, [⟨"old", false, false, false, false, false, 0, 1, ⟨[]⟩, 0, [⟨0, 1, 42⟩]⟩])],
      [("old", ⟨"old", false, false, true, false, false, 0, 0, ⟨[]⟩, 0, []⟩)],
      [], [], [], []⟩
    ⟨"new", false, false, false, false, false, 0, 1, ⟨[]⟩, 0, [⟨0, 1, 42⟩]⟩
    none (by decide) (by decide) (by decide)).1 (by decide)
  obtain ⟨c, hmem, hbe, hr, hp, hfd⟩ := h
  have hc : c = ⟨"old", false, false, false, false, false, 0, 1, ⟨[]⟩, 0, [⟨0, 1, 42⟩]⟩ := by
    rw [show bucketGet
        (⟨[(42, [⟨"old", false, false, false, false, false, 0, 1, ⟨[]⟩, 0, [⟨0, 1, 42⟩]⟩])],
          [("old", ⟨"old", false, false, true, false, false, 0, 0, ⟨[]⟩, 0, []⟩)],
          [], [], [], []⟩ : DrainState).buckets
        (firstHash ⟨"new", false, false, false, false, false, 0, 1, ⟨[]⟩, 0, [⟨0, 1, 42⟩]⟩) =
        [⟨"old", false, false, false, false, false, 0, 1, ⟨[]⟩, 0, [⟨0, 1, 42⟩]⟩] from by
      decide] at hmem
    simpa using hmem
  subst hc
  exact ⟨by simpa using hr, by simpa using hp, by simpa using hfd⟩
